import Mathlib

/-!
Verification of the zod-form-react schema-to-form core.

The definitions below are a shallow embedding of the repository source:

* `mapZodTypeToFieldType`, `extractValidationRules`, `getZodTypeInfo`,
  `analyzeField`, `parseSchema`, `analyzeSchema`, `generateDefaultValues`,
  `validateWithSchema` embed `src/utils/schema-parser.ts`;
* `useConditionalFields` embeds the visibility hook of
  `src/hooks/useZodForm.ts`;
* `saveToFirestore` embeds the save path of `src/firebase/hooks.ts`,
  together with a model of the document store it writes to.

Zod schemas are embedded as a deep syntax tree mirroring the runtime
class layout the source branches on (`instanceof z.ZodString`, the
ordered `_def.checks` list, and so on).  JavaScript values are embedded
as `Value`; JS numbers are modelled as integers (no claim involves
non-integer arithmetic).  The JS regex engine backing the string checks
is abstracted as an oracle (`JsOracle`); no claim depends on a concrete
regex semantics.
-/

/-- JavaScript runtime values (JSON values plus `undefined` and dates). -/
inductive Value where
  | vNull
  | vUndefined
  | vBool (b : Bool)
  | vNum (n : Int)
  | vStr (s : String)
  | vDate (t : Int)
  | vArr (xs : List Value)
  | vObj (fields : List (String × Value))

mutual

/-- Structural equality on values, used where the source compares values
with `===` or list membership.  JS reference equality on objects and
arrays is modelled structurally; no claim depends on the difference. -/
def valueEq : Value → Value → Bool
  | .vNull, .vNull => true
  | .vUndefined, .vUndefined => true
  | .vBool a, .vBool b => a == b
  | .vNum a, .vNum b => a == b
  | .vStr a, .vStr b => a == b
  | .vDate a, .vDate b => a == b
  | .vArr xs, .vArr ys => valueListEq xs ys
  | .vObj xs, .vObj ys => valueFieldsEq xs ys
  | _, _ => false

/-- Elementwise equality of value lists. -/
def valueListEq : List Value → List Value → Bool
  | [], [] => true
  | x :: xs, y :: ys => valueEq x y && valueListEq xs ys
  | _, _ => false

/-- Elementwise equality of keyed value lists. -/
def valueFieldsEq : List (String × Value) → List (String × Value) → Bool
  | [], [] => true
  | (k, x) :: xs, (l, y) :: ys => k == l && valueEq x y && valueFieldsEq xs ys
  | _, _ => false

end

/-- Checks attached to a `ZodString` (`_def.checks`, in declaration order). -/
inductive StrCheck where
  | email
  | url
  | uuid
  | cuid
  | min (value : Nat)
  | max (value : Nat)
  | regex (source : String)
  | startsWith (value : String)
  | endsWith (value : String)
deriving DecidableEq, Repr

/-- Checks attached to a `ZodNumber` (`_def.checks`, in declaration order). -/
inductive NumCheck where
  | min (value : Int) (inclusive : Bool)
  | max (value : Int) (inclusive : Bool)
  | int
  | multipleOf (value : Int)
  | finite
deriving DecidableEq, Repr

/-- Deep embedding of the Zod schema nodes the source code branches on.
`zUnknownKind` stands for any runtime class not matched by the
`instanceof` cascade (for example `ZodLiteral` or `ZodTuple`). -/
inductive Schema where
  | zDefault (defaultValue : Value) (inner : Schema)
  | zOptional (inner : Schema)
  | zNullable (inner : Schema)
  | zEffects (inner : Schema)
  | zString (checks : List StrCheck)
  | zNumber (checks : List NumCheck)
  | zBoolean
  | zDate
  | zEnum (values : List String)
  | zNativeEnum (values : List Value)
  | zArray (minLength : Option Nat) (maxLength : Option Nat) (element : Schema)
  | zObject (shape : List (String × Schema))
  | zRecord (valueSchema : Schema)
  | zUnion (options : List Schema)
  | zDiscriminatedUnion (discriminator : String) (optionsMap : List (String × Schema))
  | zFile
  | zBigInt
  | zUnknownKind

/-- Widget types of `FieldType` in `src/types`. -/
inductive FieldType where
  | text
  | email
  | url
  | textarea
  | number
  | range
  | checkbox
  | date
  | radio
  | select
  | array
  | object
  | record
  | file
deriving DecidableEq, Repr

/-- One entry of an option list (`{ label, value }`). -/
structure OptionItem where
  label : String
  value : Value

/-- A conditional-visibility rule (`FieldConfig.showWhen`).  `operator`
is `none` when the configuration omits it (the evaluator then defaults
to `equals`). -/
structure ShowWhenRule where
  field : String
  value : Value
  operator : Option String

/-- The (partial) field configuration record.  It covers both the keys
written by `mapZodTypeToFieldType` and the keys written by
`extractValidationRules`; `none` models an absent key.  `pattern`
stores the regex source string for both the string-valued pattern of
the mapper and the `RegExp`-valued pattern of the rule extractor. -/
structure FieldConfig where
  defaultValue : Option Value := none
  required : Option Bool := none
  pattern : Option String := none
  minLength : Option Nat := none
  maxLength : Option Nat := none
  min : Option Int := none
  max : Option Int := none
  step : Option Int := none
  options : Option (List OptionItem) := none
  minItems : Option Nat := none
  maxItems : Option Nat := none
  email : Option Bool := none
  url : Option Bool := none
  uuid : Option Bool := none
  cuid : Option Bool := none
  startsWith : Option String := none
  endsWith : Option String := none
  minInclusive : Option Bool := none
  maxInclusive : Option Bool := none
  integer : Option Bool := none
  multipleOf : Option Int := none
  finite : Option Bool := none
  showWhen : Option ShowWhenRule := none
  fields : Option (List (String × Value)) := none

/-- Result of `mapZodTypeToFieldType`: a widget type plus a partial config. -/
structure MapResult where
  type : FieldType
  config : FieldConfig

mutual

/-- JS `String(value)` coercion, used for option labels. -/
def jsToString : Value → String
  | .vNull => "null"
  | .vUndefined => "undefined"
  | .vBool b => if b then "true" else "false"
  | .vNum n => toString n
  | .vStr s => s
  | .vDate t => toString t
  | .vArr xs => String.intercalate "," (jsToStringList xs)
  | .vObj _ => "[object Object]"

/-- Coerces every element of a list of values. -/
def jsToStringList : List Value → List String
  | [] => []
  | x :: xs => jsToString x :: jsToStringList xs

end

/-- JS `s.charAt(0).toUpperCase() + s.slice(1)`. -/
def capitalize (s : String) : String :=
  match s.data with
  | [] => ""
  | c :: cs => String.mk (c.toUpper :: cs)

/-- The uuid pattern literal of `mapZodTypeToFieldType`. -/
def uuidPattern : String :=
  "^[0-9a-fA-F]\x7b8\x7d-[0-9a-fA-F]\x7b4\x7d-[0-9a-fA-F]\x7b4\x7d-[0-9a-fA-F]\x7b4\x7d-[0-9a-fA-F]\x7b12\x7d$"

/-- The `for (const check of zodType._def.checks)` loop of the
`ZodString` branch of `mapZodTypeToFieldType`.  `email` and `url`
return immediately; a `min` check with value at least 100 returns
`textarea` immediately; the remaining recognised checks update the
config and continue; unrecognised checks fall through the `switch`. -/
def stringChecksLoop : List StrCheck → FieldConfig → MapResult
  | [], config => { type := .text, config }
  | c :: rest, config =>
    match c with
    | .email => { type := .email, config }
    | .url => { type := .url, config }
    | .uuid => stringChecksLoop rest { config with pattern := some uuidPattern }
    | .min v =>
      let config := { config with minLength := some v }
      if v ≥ 100 then { type := .textarea, config }
      else stringChecksLoop rest config
    | .max v => stringChecksLoop rest { config with maxLength := some v }
    | .regex src => stringChecksLoop rest { config with pattern := some src }
    | .cuid => stringChecksLoop rest config
    | .startsWith _ => stringChecksLoop rest config
    | .endsWith _ => stringChecksLoop rest config

/-- The check loop of the `ZodNumber` branch of `mapZodTypeToFieldType`,
threading the config and the local `minValue` / `maxValue` variables;
after the loop the range heuristic picks the widget type. -/
def numberChecksLoop : List NumCheck → FieldConfig → Option Int → Option Int → MapResult
  | [], config, minValue, maxValue =>
    match minValue, maxValue with
    | some a, some b =>
      if b - a ≤ 10 then { type := .range, config } else { type := .number, config }
    | _, _ => { type := .number, config }
  | c :: rest, config, minValue, maxValue =>
    match c with
    | .min v _ => numberChecksLoop rest { config with min := some v } (some v) maxValue
    | .max v _ => numberChecksLoop rest { config with max := some v } minValue (some v)
    | .int => numberChecksLoop rest { config with step := some 1 } minValue maxValue
    | .multipleOf v => numberChecksLoop rest { config with step := some v } minValue maxValue
    | .finite => numberChecksLoop rest config minValue maxValue

/-- Embedding of `mapZodTypeToFieldType` (schema-parser, lines 11-196).
The `path` parameter of the source is never read and is omitted. -/
def mapZodTypeToFieldType : Schema → MapResult
  | .zDefault v inner =>
    let result := mapZodTypeToFieldType inner
    { result with config := { result.config with defaultValue := some v } }
  | .zOptional inner =>
    let result := mapZodTypeToFieldType inner
    { result with config := { result.config with required := some false } }
  | .zNullable inner =>
    let result := mapZodTypeToFieldType inner
    { result with config := { result.config with required := some false } }
  | .zEffects inner => mapZodTypeToFieldType inner
  | .zString checks => stringChecksLoop checks {}
  | .zNumber checks => numberChecksLoop checks {} none none
  | .zBoolean => { type := .checkbox, config := {} }
  | .zDate => { type := .date, config := {} }
  | .zEnum values =>
    let options := values.map fun v => OptionItem.mk (capitalize v) (.vStr v)
    if options.length ≤ 4 then { type := .radio, config := { options := some options } }
    else { type := .select, config := { options := some options } }
  | .zNativeEnum values =>
    let options := values.map fun v => OptionItem.mk (capitalize (jsToString v)) v
    { type := .select, config := { options := some options } }
  | .zArray mn mx _ =>
    { type := .array, config := { minItems := mn, maxItems := mx } }
  | .zObject _ => { type := .object, config := {} }
  | .zRecord _ => { type := .record, config := {} }
  | .zUnion options =>
    let options := (List.range options.length).map fun i =>
      OptionItem.mk ("Option " ++ toString (i + 1)) (.vNum i)
    { type := .radio, config := { options := some options } }
  | .zDiscriminatedUnion _ optionsMap =>
    let options := optionsMap.map fun p =>
      OptionItem.mk (capitalize p.1) (.vStr p.1)
    { type := .select, config := { options := some options } }
  | .zFile => { type := .file, config := {} }
  | .zBigInt => { type := .number, config := {} }
  | .zUnknownKind => { type := .text, config := {} }

/-- The string-check loop of `extractValidationRules`. -/
def extractStringRules : List StrCheck → FieldConfig → FieldConfig
  | [], rules => rules
  | c :: rest, rules =>
    match c with
    | .min v => extractStringRules rest { rules with minLength := some v }
    | .max v => extractStringRules rest { rules with maxLength := some v }
    | .email => extractStringRules rest { rules with email := some true }
    | .url => extractStringRules rest { rules with url := some true }
    | .regex src => extractStringRules rest { rules with pattern := some src }
    | .uuid => extractStringRules rest { rules with uuid := some true }
    | .cuid => extractStringRules rest { rules with cuid := some true }
    | .startsWith v => extractStringRules rest { rules with startsWith := some v }
    | .endsWith v => extractStringRules rest { rules with endsWith := some v }

/-- The number-check loop of `extractValidationRules`. -/
def extractNumberRules : List NumCheck → FieldConfig → FieldConfig
  | [], rules => rules
  | c :: rest, rules =>
    match c with
    | .min v incl =>
      extractNumberRules rest { rules with min := some v, minInclusive := some incl }
    | .max v incl =>
      extractNumberRules rest { rules with max := some v, maxInclusive := some incl }
    | .int => extractNumberRules rest { rules with integer := some true }
    | .multipleOf v => extractNumberRules rest { rules with multipleOf := some v }
    | .finite => extractNumberRules rest { rules with finite := some true }

/-- Embedding of `extractValidationRules` (schema-parser, lines 201-298).
The dynamic `rules` record is modelled by `FieldConfig` with `none` for
absent keys; the `RegExp` stored under `pattern` is modelled by its
source string. -/
def extractValidationRules : Schema → FieldConfig
  | .zDefault _ inner => extractValidationRules inner
  | .zOptional inner => { extractValidationRules inner with required := some false }
  | .zNullable inner => { extractValidationRules inner with required := some false }
  | .zEffects inner => extractValidationRules inner
  | .zString checks => { extractStringRules checks {} with required := some true }
  | .zNumber checks => { extractNumberRules checks {} with required := some true }
  | .zArray mn mx _ => { minItems := mn, maxItems := mx, required := some true }
  | _ => { required := some true }

/-- The `_def.typeName` tag of a schema node. -/
def typeNameOf : Schema → String
  | .zDefault _ _ => "ZodDefault"
  | .zOptional _ => "ZodOptional"
  | .zNullable _ => "ZodNullable"
  | .zEffects _ => "ZodEffects"
  | .zString _ => "ZodString"
  | .zNumber _ => "ZodNumber"
  | .zBoolean => "ZodBoolean"
  | .zDate => "ZodDate"
  | .zEnum _ => "ZodEnum"
  | .zNativeEnum _ => "ZodNativeEnum"
  | .zArray _ _ _ => "ZodArray"
  | .zObject _ => "ZodObject"
  | .zRecord _ => "ZodRecord"
  | .zUnion _ => "ZodUnion"
  | .zDiscriminatedUnion _ _ => "ZodDiscriminatedUnion"
  | .zFile => "ZodType"
  | .zBigInt => "ZodBigInt"
  | .zUnknownKind => "ZodUnknown"

/-- Embedding of `ZodTypeInfo` as produced by `getZodTypeInfo`
(descriptions are not modelled: the embedded schema nodes carry none). -/
structure ZodTypeInfo where
  typeName : String
  isOptional : Bool
  isNullable : Bool
  hasDefault : Bool
  defaultValue : Option Value := none
  options : Option (List OptionItem) := none

/-- Embedding of `getZodTypeInfo` (schema-parser, lines 303-328). -/
def getZodTypeInfo (s : Schema) : ZodTypeInfo :=
  let base : ZodTypeInfo :=
    { typeName := typeNameOf s
      isOptional := match s with | .zOptional _ => true | _ => false
      isNullable := match s with | .zNullable _ => true | _ => false
      hasDefault := match s with | .zDefault _ _ => true | _ => false }
  let base := match s with
    | .zDefault v _ => { base with defaultValue := some v }
    | _ => base
  match s with
  | .zEnum values =>
    { base with options := some (values.map fun v => OptionItem.mk v (.vStr v)) }
  | _ => base

/-- JS object spread `{ ...config, ...validation }`: keys present in the
second record override keys of the first. -/
def mergeConfig (c v : FieldConfig) : FieldConfig where
  defaultValue := v.defaultValue <|> c.defaultValue
  required := v.required <|> c.required
  pattern := v.pattern <|> c.pattern
  minLength := v.minLength <|> c.minLength
  maxLength := v.maxLength <|> c.maxLength
  min := v.min <|> c.min
  max := v.max <|> c.max
  step := v.step <|> c.step
  options := v.options <|> c.options
  minItems := v.minItems <|> c.minItems
  maxItems := v.maxItems <|> c.maxItems
  email := v.email <|> c.email
  url := v.url <|> c.url
  uuid := v.uuid <|> c.uuid
  cuid := v.cuid <|> c.cuid
  startsWith := v.startsWith <|> c.startsWith
  endsWith := v.endsWith <|> c.endsWith
  minInclusive := v.minInclusive <|> c.minInclusive
  maxInclusive := v.maxInclusive <|> c.maxInclusive
  integer := v.integer <|> c.integer
  multipleOf := v.multipleOf <|> c.multipleOf
  finite := v.finite <|> c.finite
  showWhen := v.showWhen <|> c.showWhen
  fields := v.fields <|> c.fields

/-- Embedding of `FieldAnalysis` (per-field result of the parser). -/
structure FieldAnalysis where
  name : String
  type : FieldType
  zodType : String
  required : Bool
  config : FieldConfig
  defaultValue : Option Value := none

/-- Embedding of `analyzeField` (schema-parser, lines 333-350). -/
def analyzeField (name : String) (zodType : Schema) : FieldAnalysis :=
  let mapped := mapZodTypeToFieldType zodType
  let validation := extractValidationRules zodType
  let typeInfo := getZodTypeInfo zodType
  { name
    type := mapped.type
    zodType := typeNameOf zodType
    required := validation.required != some false
    config := mergeConfig mapped.config validation
    defaultValue := typeInfo.defaultValue }

/-- Embedding of `parseSchema` (schema-parser, lines 355-369): one
`FieldAnalysis` per top-level property of an object schema, in shape
order; any non-object schema yields the empty field record. -/
def parseSchema : Schema → List (String × FieldAnalysis)
  | .zObject shape => shape.map fun p => (p.1, analyzeField p.1 p.2)
  | _ => []

/-- The `complexity` classification values. -/
inductive Complexity where
  | simple
  | moderate
  | complex
deriving DecidableEq, Repr

/-- Embedding of `SchemaAnalysis`. -/
structure SchemaAnalysis where
  fields : List FieldAnalysis
  hasArrays : Bool
  hasObjects : Bool
  hasConditionals : Bool
  complexity : Complexity

/-- Embedding of `analyzeSchema` (schema-parser, lines 374-407).  The
two sequential reassignments of `complexity` become nested
conditionals. -/
def analyzeSchema (schema : Schema) : SchemaAnalysis :=
  let fields := (parseSchema schema).map Prod.snd
  let hasArrays := fields.any fun field => field.type == .array
  let hasObjects := fields.any fun field => field.type == .object
  let hasConditionals := fields.any fun field => field.config.showWhen.isSome
  let moderateStep : Complexity :=
    if hasArrays || hasObjects || fields.length > 10 then .moderate else .simple
  let complexity : Complexity :=
    if hasConditionals || fields.length > 20 ||
        fields.any (fun field =>
          field.type == .object &&
          (match field.config.fields with
           | some fs => decide (fs.length > 5)
           | none => false)) then
      .complex
    else moderateStep
  { fields, hasArrays, hasObjects, hasConditionals, complexity }

mutual

/-- The `instanceof` cascade of `generateDefaultValues` (schema-parser,
lines 421-433): the value assigned under a key, or `none` when the node
matches none of the listed classes and the key is omitted.  In
particular `ZodOptional` and `ZodNullable` wrappers are not unwrapped. -/
def defaultEntry : Schema → Option Value
  | .zDefault v _ => some v
  | .zArray _ _ _ => some (.vArr [])
  | .zObject shape => some (.vObj (genDefaults shape))
  | .zBoolean => some (.vBool false)
  | .zNumber _ => some (.vNum 0)
  | .zString _ => some (.vStr "")
  | _ => none

/-- Embedding of `generateDefaultValues` (schema-parser, lines 412-438)
on the shape of an object schema: one optional entry per property, in
shape order. -/
def genDefaults : List (String × Schema) → List (String × Value)
  | [] => []
  | (key, s) :: rest =>
    (match defaultEntry s with
     | some v => [(key, v)]
     | none => []) ++ genDefaults rest

end

/-- Embedding of `generateDefaultValues`: non-object schemas yield the
empty record. -/
def generateDefaultValues : Schema → List (String × Value)
  | .zObject shape => genDefaults shape
  | _ => []

/-- One segment of an error path (string key or array index). -/
inductive Seg where
  | str (s : String)
  | idx (n : Nat)
deriving DecidableEq, Repr

/-- Renders a path segment the way JS `Array.prototype.join` does. -/
def segToString : Seg → String
  | .str s => s
  | .idx n => toString n

/-- JS `path.join "."` on a list of path segments. -/
def joinPath (path : List Seg) : String :=
  String.intercalate "." (path.map segToString)

/-- A schema-native issue as produced by `safeParse`
(`result.error.errors` entries: code, message, path). -/
structure Issue where
  code : String
  message : String
  path : List Seg
deriving DecidableEq, Repr

/-- Oracle for the JS regex engine backing the Zod string checks.
No claim depends on a concrete regex semantics, so the predicates are
kept abstract and every theorem quantifies over the oracle. -/
structure JsOracle where
  emailTest : String → Bool
  urlTest : String → Bool
  uuidTest : String → Bool
  cuidTest : String → Bool
  regexTest : String → String → Bool

/-- JS property access `record[key]`; a missing key reads as
`undefined`.  Records are modelled as key-value lists with distinct
keys (JS objects cannot carry duplicate keys). -/
def lookupField : List (String × Value) → String → Value
  | [], _ => .vUndefined
  | (k, v) :: rest, key => if k == key then v else lookupField rest key

/-- Issues contributed by one string check (Zod runs every check and
collects all failures). -/
def strCheckIssues (o : JsOracle) (s : String) : StrCheck → List Issue
  | .email => if o.emailTest s then [] else [⟨"invalid_string", "Invalid email", []⟩]
  | .url => if o.urlTest s then [] else [⟨"invalid_string", "Invalid url", []⟩]
  | .uuid => if o.uuidTest s then [] else [⟨"invalid_string", "Invalid uuid", []⟩]
  | .cuid => if o.cuidTest s then [] else [⟨"invalid_string", "Invalid cuid", []⟩]
  | .min v =>
    if s.length ≥ v then []
    else [⟨"too_small", "String must contain at least " ++ toString v ++ " character(s)", []⟩]
  | .max v =>
    if s.length ≤ v then []
    else [⟨"too_big", "String must contain at most " ++ toString v ++ " character(s)", []⟩]
  | .regex src => if o.regexTest src s then [] else [⟨"invalid_string", "Invalid", []⟩]
  | .startsWith v =>
    if s.startsWith v then [] else [⟨"invalid_string", "Invalid input: must start with " ++ v, []⟩]
  | .endsWith v =>
    if s.endsWith v then [] else [⟨"invalid_string", "Invalid input: must end with " ++ v, []⟩]

/-- All issues of a string value against an ordered check list. -/
def strChecksIssues (o : JsOracle) (s : String) : List StrCheck → List Issue
  | [] => []
  | c :: rest => strCheckIssues o s c ++ strChecksIssues o s rest

/-- Issues contributed by one numeric check.  Numbers are modelled as
integers, so `int` and `finite` can never fail. -/
def numCheckIssues (n : Int) : NumCheck → List Issue
  | .min v incl =>
    if (if incl then v ≤ n else v < n) then []
    else [⟨"too_small", "Number must be greater than " ++ (if incl then "or equal to " else "") ++ toString v, []⟩]
  | .max v incl =>
    if (if incl then n ≤ v else n < v) then []
    else [⟨"too_big", "Number must be less than " ++ (if incl then "or equal to " else "") ++ toString v, []⟩]
  | .int => []
  | .multipleOf v =>
    if n % v == 0 then [] else [⟨"not_multiple_of", "Number must be a multiple of " ++ toString v, []⟩]
  | .finite => []

/-- All issues of a numeric value against an ordered check list. -/
def numChecksIssues (n : Int) : List NumCheck → List Issue
  | [] => []
  | c :: rest => numCheckIssues n c ++ numChecksIssues n rest

/-- The `invalid_type` issue Zod raises when the value has the wrong
base kind. -/
def invalidType (expected : String) : Issue :=
  ⟨"invalid_type", "Expected " ++ expected, []⟩

/-- Prepends a path segment to an issue, as Zod does when descending
into an object property or array element. -/
def pushSeg (sg : Seg) (i : Issue) : Issue :=
  { i with path := sg :: i.path }

/-- Whether a value is the JS `undefined`. -/
def isUndefinedV : Value → Bool
  | .vUndefined => true
  | _ => false

/-- Whether a value is the JS `null`. -/
def isNullV : Value → Bool
  | .vNull => true
  | _ => false

/-- The input seen by the inner schema of a `ZodDefault`: the declared
default when the input is absent, the input itself otherwise. -/
def applyDefault (dv v : Value) : Value :=
  if isUndefinedV v then dv else v

/-- Length issues of an array value against declared item-count bounds. -/
def arrayLenIssues (mn mx : Option Nat) (len : Nat) : List Issue :=
  (match mn with
   | some m => if len ≥ m then []
     else [⟨"too_small", "Array must contain at least " ++ toString m ++ " element(s)", []⟩]
   | none => []) ++
  (match mx with
   | some m => if len ≤ m then []
     else [⟨"too_big", "Array must contain at most " ++ toString m ++ " element(s)", []⟩]
   | none => [])

mutual

/-- Model of Zod `safeParse` issue collection, from the documented Zod
semantics of the schema kinds the repository handles (`safeParse` is
library code external to the repository).  Refinement predicates of
`ZodEffects` are not modelled (treated as transparent); no claim
depends on them. -/
def parseIssues (o : JsOracle) : Schema → Value → List Issue
  | .zDefault dv inner, v => parseIssues o inner (applyDefault dv v)
  | .zOptional inner, v => if isUndefinedV v then [] else parseIssues o inner v
  | .zNullable inner, v => if isNullV v then [] else parseIssues o inner v
  | .zEffects inner, v => parseIssues o inner v
  | .zString checks, .vStr s => strChecksIssues o s checks
  | .zString _, _ => [invalidType "string"]
  | .zNumber checks, .vNum n => numChecksIssues n checks
  | .zNumber _, _ => [invalidType "number"]
  | .zBoolean, .vBool _ => []
  | .zBoolean, _ => [invalidType "boolean"]
  | .zDate, .vDate _ => []
  | .zDate, _ => [invalidType "date"]
  | .zEnum values, .vStr s =>
    if values.contains s then [] else [⟨"invalid_enum_value", "Invalid enum value", []⟩]
  | .zEnum _, _ => [invalidType "string"]
  | .zNativeEnum values, v =>
    if values.any (valueEq v) then [] else [⟨"invalid_enum_value", "Invalid enum value", []⟩]
  | .zArray mn mx elem, .vArr xs => arrayLenIssues mn mx xs.length ++ arrayIssues o elem xs 0
  | .zArray _ _ _, _ => [invalidType "array"]
  | .zObject shape, .vObj flds => objectIssues o shape flds
  | .zObject _, _ => [invalidType "object"]
  | .zRecord vs, .vObj flds => recordIssues o vs flds
  | .zRecord _, _ => [invalidType "object"]
  | .zUnion opts, v =>
    if unionAnyOk o opts v then [] else [⟨"invalid_union", "Invalid input", []⟩]
  | .zDiscriminatedUnion disc opts, .vObj flds => discDispatch o disc opts flds
  | .zDiscriminatedUnion _ _, _ => [invalidType "object"]
  | .zFile, _ => [⟨"custom", "Input not instance of File", []⟩]
  | .zBigInt, .vNum _ => []
  | .zBigInt, _ => [invalidType "bigint"]
  | .zUnknownKind, _ => []
termination_by s v => (sizeOf s, 1)

/-- Element-wise parsing of an array value, prefixing each issue with
the element index. -/
def arrayIssues (o : JsOracle) (elem : Schema) : List Value → Nat → List Issue
  | [], _ => []
  | x :: xs, i =>
    (parseIssues o elem x).map (pushSeg (.idx i)) ++ arrayIssues o elem xs (i + 1)
termination_by xs i => (sizeOf elem, sizeOf xs + 2)

/-- Property-wise parsing of an object value against a shape, prefixing
each issue with the property key.  Unknown keys are stripped, not
reported (the Zod default). -/
def objectIssues (o : JsOracle) : List (String × Schema) → List (String × Value) → List Issue
  | [], _ => []
  | (k, s) :: rest, flds =>
    (parseIssues o s (lookupField flds k)).map (pushSeg (.str k)) ++ objectIssues o rest flds
termination_by shape flds => (sizeOf shape, 0)

/-- Value-wise parsing of a record value. -/
def recordIssues (o : JsOracle) (vs : Schema) : List (String × Value) → List Issue
  | [] => []
  | (k, v) :: rest =>
    (parseIssues o vs v).map (pushSeg (.str k)) ++ recordIssues o vs rest
termination_by flds => (sizeOf vs, sizeOf flds + 2)

/-- Whether some union alternative accepts the value. -/
def unionAnyOk (o : JsOracle) : List Schema → Value → Bool
  | [], _ => false
  | s :: rest, v => (parseIssues o s v).isEmpty || unionAnyOk o rest v
termination_by opts v => (sizeOf opts, 0)

/-- Selection of the discriminated-union alternative: the discriminator
property must be a string tag naming one of the alternatives. -/
def discDispatch (o : JsOracle) (disc : String) (opts : List (String × Schema))
    (flds : List (String × Value)) : List Issue :=
  match lookupField flds disc with
  | .vStr tag => discIssues o tag opts (.vObj flds)
  | _ => [⟨"invalid_union_discriminator", "Invalid discriminator value", []⟩]
termination_by (sizeOf opts, 1)

/-- Parsing against the alternative selected by the discriminator tag. -/
def discIssues (o : JsOracle) (tag : String) : List (String × Schema) → Value → List Issue
  | [], _ => [⟨"invalid_union_discriminator", "Invalid discriminator value", []⟩]
  | (k, s) :: rest, v => if k == tag then parseIssues o s v else discIssues o tag rest v
termination_by opts v => (sizeOf opts, 0)

end

/-- A normalized validation error (`ValidationError` of the source). -/
structure ValidationError where
  field : String
  message : String
  code : String
  path : List Seg
deriving DecidableEq, Repr

/-- The result shape of `validateWithSchema`. -/
structure ValidationResult where
  success : Bool
  data : Option Value
  errors : List ValidationError

/-- Embedding of `validateWithSchema` (schema-parser, lines 443-472).
The source wraps the body in `try / catch`; `exceptionRaised` models
whether the JS runtime raised an exception inside the `try` block (the
`catch` branch).  On success Zod returns a freshly built output value;
since no claim inspects it, `data` carries the input value. -/
def validateWithSchema (o : JsOracle) (exceptionRaised : Bool) (schema : Schema)
    (data : Value) : ValidationResult :=
  if exceptionRaised then
    { success := false
      data := none
      errors := [{ field := "root", message := "Schema validation failed", code := "custom", path := [] }] }
  else
    let issues := parseIssues o schema data
    if issues.isEmpty then
      { success := true, data := some data, errors := [] }
    else
      { success := false
        data := none
        errors := issues.map fun err =>
          { field := joinPath err.path, message := err.message, code := err.code, path := err.path } }

/-- Approximation of JS `Number(value)` coercion on integer-modelled
numbers; `none` models `NaN`.  Only the `greater-than` / `less-than`
visibility operators consult it, and no claim depends on its exact
behaviour. -/
def jsToNumber : Value → Option Int
  | .vNum n => some n
  | .vBool b => some (if b then 1 else 0)
  | .vNull => some 0
  | .vUndefined => none
  | .vStr s => if s.trim.isEmpty then some 0 else s.trim.toInt?
  | .vDate t => some t
  | .vArr [] => some 0
  | .vArr [x] => jsToNumber x
  | .vArr _ => none
  | .vObj _ => none

/-- JS `String.prototype.includes` (substring test). -/
def substrContains (hay needle : String) : Bool :=
  needle.isEmpty || (hay.splitOn needle).length ≥ 2

/-- The per-field body of the `useConditionalFields` loop
(useZodForm.ts, lines 156-193): no rule means visible; otherwise the
operator (defaulting to `equals`) is dispatched, and any unknown
operator falls through the `switch` default to visible. -/
def fieldVisible (field : FieldAnalysis) (formValues : List (String × Value)) : Bool :=
  match field.config.showWhen with
  | none => true
  | some rule =>
    let operator := rule.operator.getD "equals"
    let actualValue := lookupField formValues rule.field
    if operator == "equals" then valueEq actualValue rule.value
    else if operator == "not-equals" then !(valueEq actualValue rule.value)
    else if operator == "contains" then
      match actualValue with
      | .vArr xs => xs.any (valueEq rule.value)
      | _ => substrContains (jsToString actualValue) (jsToString rule.value)
    else if operator == "greater-than" then
      match jsToNumber actualValue, jsToNumber rule.value with
      | some a, some b => decide (a > b)
      | _, _ => false
    else if operator == "less-than" then
      match jsToNumber actualValue, jsToNumber rule.value with
      | some a, some b => decide (a < b)
      | _, _ => false
    else true

/-- Embedding of `useConditionalFields` (useZodForm.ts, lines 149-198):
one visibility flag per field definition.  The `Record` the source
builds by `forEach` is modelled as a keyed list in iteration order. -/
def useConditionalFields (fields : List (String × FieldAnalysis))
    (formValues : List (String × Value)) : List (String × Bool) :=
  fields.map fun p => (p.1, fieldVisible p.2 formValues)

/-- A timestamp slot: the `serverTimestamp()` sentinel inside an
outgoing payload, or a server-resolved time inside a stored document. -/
inductive TsValue where
  | serverTimestamp
  | resolved (t : Nat)
deriving DecidableEq, Repr

/-- The nested `_metadata` map of a payload or stored document.  An
outer `none` models an absent key; under the actor fields, an inner
`none` models an explicit JS `null` (`user?.uid || null`). -/
structure MetadataMap where
  createdAt : Option TsValue := none
  createdBy : Option (Option String) := none
  updatedAt : Option TsValue := none
  updatedBy : Option (Option String) := none
deriving DecidableEq, Repr

/-- A document: top-level value-tree fields plus the optional top-level
`_metadata` map.  The same shape serves for outgoing payloads. -/
structure FireDoc where
  data : List (String × Value)
  meta : Option MetadataMap

/-- JS `user?.uid || null`: no user, or a falsy (empty) uid, gives null. -/
def uidOrNull : Option String → Option String
  | some u => if u = "" then none else some u
  | none => none

/-- The payload assembly of `saveToFirestore` (firebase/hooks.ts, lines
159-177): always stamp `updatedAt` / `updatedBy`; additionally spread
in `createdAt` / `createdBy` exactly when no document id is bound yet
(`currentDocId` is null). -/
def buildSavePayload (includeMetadata : Bool) (currentDocId : Option String)
    (user : Option String) (formData : List (String × Value)) : FireDoc :=
  if includeMetadata then
    { data := formData
      meta := some
        { updatedAt := some .serverTimestamp
          updatedBy := some (uidOrNull user)
          createdAt := match currentDocId with | some _ => none | none => some .serverTimestamp
          createdBy := match currentDocId with | some _ => none | none => some (uidOrNull user) } }
  else
    { data := formData, meta := none }

/-- Server-side resolution of the timestamp sentinel on write. -/
def resolveTs (now : Nat) : Option TsValue → Option TsValue
  | some .serverTimestamp => some (.resolved now)
  | x => x

/-- Resolves every sentinel of a metadata map against the server clock. -/
def resolveMeta (now : Nat) (m : MetadataMap) : MetadataMap :=
  { createdAt := resolveTs now m.createdAt
    createdBy := m.createdBy
    updatedAt := resolveTs now m.updatedAt
    updatedBy := m.updatedBy }

/-- Top-level merge of value-tree fields: payload fields replace stored
fields of the same name, remaining stored fields are kept.  (The value
trees of the claims are flat, so nesting below the top level is not
modelled.) -/
def mergeDataFields (old new : List (String × Value)) : List (String × Value) :=
  old.filter (fun p => (new.find? (fun q => q.1 == p.1)).isNone) ++ new

/-- Modelled from the Firestore documentation of
`setDoc(ref, data, \x7b merge: true \x7d)` (library code external to the
repository): fields are merged recursively, so a nested `_metadata`
map is merged field by field with the stored one. -/
def setDocMerge (old : Option FireDoc) (payload : FireDoc) (now : Nat) : FireDoc :=
  match old with
  | none => { data := payload.data, meta := payload.meta.map (resolveMeta now) }
  | some d =>
    { data := mergeDataFields d.data payload.data
      meta :=
        match d.meta, payload.meta with
        | none, pm => pm.map (resolveMeta now)
        | some om, none => some om
        | some om, some pm =>
          some
            { createdAt := resolveTs now pm.createdAt <|> om.createdAt
              createdBy := pm.createdBy <|> om.createdBy
              updatedAt := resolveTs now pm.updatedAt <|> om.updatedAt
              updatedBy := pm.updatedBy <|> om.updatedBy } }

/-- Modelled from the Firestore documentation of `updateDoc(ref, data)`
(library code external to the repository): each top-level field of the
payload replaces the stored field of that name, and a map value
replaces the entire stored map at that key (merging inside a nested
map requires dot-separated field paths, which the source does not
use).  Fields absent from the payload are untouched. -/
def updateDocApply (old : FireDoc) (payload : FireDoc) (now : Nat) : FireDoc :=
  { data := mergeDataFields old.data payload.data
    meta :=
      match payload.meta with
      | some pm => some (resolveMeta now pm)
      | none => old.meta }

/-- The configuration of one bound form (the hook arguments the save
path reads).  `documentRef` is modelled by the referenced document id. -/
structure EngineConfig where
  collectionName : Option String
  documentRef : Option String
  user : Option String
  includeMetadata : Bool

/-- The sync-engine state the save path touches: the bound document id
(`currentDocId`, null until a first write assigns one) and the remote
store, modelled as a keyed list of documents. -/
structure EngineState where
  currentDocId : Option String
  store : List (String × FireDoc)

/-- Model of the Firestore-generated identifier returned by `addDoc`:
fresh with respect to the store and never null or empty. -/
def freshDocId (store : List (String × FireDoc)) : String :=
  "doc-" ++ toString store.length

/-- Reads a document from the store. -/
def storeGet (store : List (String × FireDoc)) (id : String) : Option FireDoc :=
  (store.find? (fun p => p.1 == id)).map (fun p => p.2)

/-- Writes a document into the store under an existing or new id. -/
def storeSet (store : List (String × FireDoc)) (id : String) (d : FireDoc) :
    List (String × FireDoc) :=
  if (store.find? (fun p => p.1 == id)).isSome then
    store.map (fun p => if p.1 == id then (p.1, d) else p)
  else
    store ++ [(id, d)]

/-- Embedding of the write dispatch of `saveToFirestore`
(firebase/hooks.ts, lines 153-214): a `documentRef` wins and is written
with `setDoc(..., merge)`; else a bound `collection` + `currentDocId`
is written with `updateDoc` (which rejects a missing document); else a
bare `collection` creates a document via `addDoc` and binds the newly
assigned id; else the configuration error is thrown.  `now` is the
server clock resolving timestamp sentinels.  The React state flags and
the transform hooks are not modelled (no claim involves them).  On
success the reached document id is returned alongside the new state. -/
def saveToFirestore (cfg : EngineConfig) (st : EngineState)
    (formData : List (String × Value)) (now : Nat) :
    Except String (EngineState × String) :=
  let dataToSave := buildSavePayload cfg.includeMetadata st.currentDocId cfg.user formData
  match cfg.documentRef with
  | some ref =>
    .ok ({ st with store := storeSet st.store ref (setDocMerge (storeGet st.store ref) dataToSave now) }, ref)
  | none =>
    match cfg.collectionName, st.currentDocId with
    | some _, some id =>
      match storeGet st.store id with
      | some old => .ok ({ st with store := storeSet st.store id (updateDocApply old dataToSave now) }, id)
      | none => .error "updateDoc: no document to update"
    | some _, none =>
      let id := freshDocId st.store
      .ok ({ currentDocId := some id
             store := st.store ++ [(id, { data := dataToSave.data, meta := dataToSave.meta.map (resolveMeta now) })] }, id)
    | none, _ => .error "FirestoreForm: No collection name or document reference provided."

/-- A concrete oracle instance used by the closed witness theorems. -/
def defaultOracle : JsOracle :=
  { emailTest := fun _ => false
    urlTest := fun _ => false
    uuidTest := fun _ => false
    cuidTest := fun _ => false
    regexTest := fun _ _ => false }

/-- A string check that neither terminates the widget search nor is a
long min-length check itself: scanning continues past it. -/
def keepsScanning : StrCheck → Bool
  | .email => false
  | .url => false
  | .min v => decide (v < 100)
  | _ => true

/-- The value of the last min bound in a numeric check list, if any. -/
def lastMinVal : List NumCheck → Option Int
  | [] => none
  | c :: rest => lastMinVal rest <|> (match c with | .min v _ => some v | _ => none)

/-- The value of the last max bound in a numeric check list, if any. -/
def lastMaxVal : List NumCheck → Option Int
  | [] => none
  | c :: rest => lastMaxVal rest <|> (match c with | .max v _ => some v | _ => none)

/-- The step set by the last int or multipleOf check, if any. -/
def lastStepVal : List NumCheck → Option Int
  | [] => none
  | c :: rest =>
    lastStepVal rest <|> (match c with | .int => some 1 | .multipleOf v => some v | _ => none)

/-- Whether the top-level node is an optional or nullable wrapper. -/
def isOptionalOrNullableTop : Schema → Bool
  | .zOptional _ => true
  | .zNullable _ => true
  | _ => false

/-- A six-property nested shape used against claim C3. -/
def c3NestedShape : List (String × Schema) :=
  [("p1", .zString []), ("p2", .zString []), ("p3", .zString []),
   ("p4", .zString []), ("p5", .zString []), ("p6", .zString [])]

/-- An object schema whose only field is object-typed with six nested
properties. -/
def c3Example : Schema := .zObject [("a", .zObject c3NestedShape)]

/-- A shape whose only property is nullable but not optional. -/
def c4NullableShape : List (String × Schema) := [("a", .zNullable (.zString []))]

/-- A shape whose only property carries a declared default violating
the inner constraints. -/
def c4BadDefaultShape : List (String × Schema) :=
  [("b", .zDefault (.vStr "ab") (.zString [.min 5]))]

/-- A shape whose properties are optional or carry conforming defaults. -/
def c4GoodShape : List (String × Schema) :=
  [("a", .zOptional (.zString [])), ("b", .zDefault (.vNum 3) (.zNumber []))]

/-- A field definition carrying a visibility rule with an operator
outside the recognised set. -/
def c8RuleField : FieldAnalysis :=
  { name := "x", type := .text, zodType := "ZodString", required := true
    config := { showWhen := some { field := "dep", value := .vStr "v", operator := some "sometimes" } } }

/-- A field definition with no visibility rule. -/
def c8PlainField : FieldAnalysis :=
  { name := "y", type := .text, zodType := "ZodString", required := true, config := {} }

/-- The sync-engine configuration of claim C1: collection-bound save
with metadata inclusion and user `u1`. -/
def c1Config : EngineConfig :=
  { collectionName := some "c", documentRef := none, user := some "u1", includeMetadata := true }

/-- A stored document carrying creation and update stamps from an
earlier create by user `u0` at server time 5. -/
def c1StoredDoc : FireDoc :=
  { data := [("title", .vStr "old")]
    meta := some
      { createdAt := some (.resolved 5), createdBy := some (some "u0")
        updatedAt := some (.resolved 5), updatedBy := some (some "u0") } }

/-- The engine state of claim C1: bound to document `abc`. -/
def c1State : EngineState :=
  { currentDocId := some "abc", store := [("abc", c1StoredDoc)] }

/-- The document stored under `abc` after the update save of claim C1. -/
def c1DocAfter : FireDoc :=
  { data := [("title", .vStr "x")]
    meta := some
      { createdAt := none, createdBy := none
        updatedAt := some (.resolved 9), updatedBy := some (some "u1") } }

/-- A shape with optional, nullable, and plain string properties. -/
def c10Shape : List (String × Schema) :=
  [("a", .zOptional (.zString [])), ("b", .zNullable .zBoolean), ("c", .zString [])]

/-- C1: the claim asserts that an update save preserves the stored
creation stamps.  At the concrete failing input below, the engine is
bound to document `abc` whose `_metadata` holds `createdAt = 5` and
`createdBy = u0`; saving `{title: x}` as user `u1` issues `updateDoc`
with `_metadata = {updatedAt, updatedBy}`, which replaces the whole
nested `_metadata` map, so the stored `createdAt` and `createdBy` are
erased rather than preserved. -/
theorem c1_update_erases_creation_metadata :
    saveToFirestore c1Config c1State [("title", .vStr "x")] 9 =
      .ok ({ currentDocId := some "abc", store := [("abc", c1DocAfter)] }, "abc") ∧
    c1StoredDoc.meta =
      some { createdAt := some (.resolved 5), createdBy := some (some "u0")
             updatedAt := some (.resolved 5), updatedBy := some (some "u0") } ∧
    c1DocAfter.meta =
      some { createdAt := none, createdBy := none
             updatedAt := some (.resolved 9), updatedBy := some (some "u1") } :=
  ⟨rfl, rfl, rfl⟩

/-- C2 counterexample: in the string schema with checks
`[min 100, max 200]` no email or url check precedes the long min-length
check, so the claim asserts the later max-length constraint is merged
into the returned config; the mapper instead returns at the min check
and drops it (`maxLength` stays absent). -/
theorem c2_later_constraints_dropped :
    (mapZodTypeToFieldType (.zString [.min 100, .max 200])).type = .textarea ∧
    (mapZodTypeToFieldType (.zString [.min 100, .max 200])).config.maxLength = none :=
  ⟨rfl, rfl⟩

/-- C5 counterexample: for the number schema with checks
`[multipleOf 5, int]` both an integer and a multipleOf constraint are
declared, so the claim asserts `config.step = 5` (multipleOf overrides
step); the code processes checks in declaration order and the later
int check leaves `step = 1`. -/
theorem c5_int_after_multiple_resets_step :
    (mapZodTypeToFieldType (.zNumber [.multipleOf 5, .int])).config.step = some 1 :=
  rfl

/-- C9: a native-enum schema is always mapped to the select widget,
whatever the number of enum values; the option-count rule of literal
enums does not apply. -/
theorem c9_native_enum_select (values : List Value) :
    (mapZodTypeToFieldType (.zNativeEnum values)).type = .select :=
  rfl

/-- C6: a literal enum schema yields the ordered option list with
capitalized labels over raw values, radio for at most four options and
select otherwise. -/
theorem c6_enum_mapping (values : List String) :
    (mapZodTypeToFieldType (.zEnum values)).config.options =
      some (values.map fun v => OptionItem.mk (capitalize v) (.vStr v)) ∧
    (mapZodTypeToFieldType (.zEnum values)).type =
      (if values.length ≤ 4 then .radio else .select) := by
  simp only [mapZodTypeToFieldType, List.length_map]
  split <;> exact ⟨rfl, rfl⟩

/-- C3 counterexample: `c3Example` has a single object-typed field
whose nested shape has six (more than five) properties, so the claim
asserts complexity `complex`; the analyzer reports `moderate`, because
its escalation test reads `config.fields`, which the parser never
populates. -/
theorem c3_nested_object_not_complex :
    (mapZodTypeToFieldType (.zObject c3NestedShape)).type = .object ∧
    c3NestedShape.length = 6 ∧
    (analyzeSchema c3Example).complexity = .moderate :=
  ⟨rfl, rfl, rfl⟩

/-- C4 counterexample: the claim quantifies over schemas whose
properties are all optional, nullable, or defaulted.  It fails both for
a nullable-but-not-optional property (its key is omitted from the
synthesized tree, and parsing then rejects the missing key) and for a
property whose declared default violates its own inner constraints. -/
theorem c4_roundtrip_fails :
    (validateWithSchema defaultOracle false (.zObject c4NullableShape)
       (.vObj (generateDefaultValues (.zObject c4NullableShape)))).success = false ∧
    (validateWithSchema defaultOracle false (.zObject c4BadDefaultShape)
       (.vObj (generateDefaultValues (.zObject c4BadDefaultShape)))).success = false := by
  have h2 : ¬ (5 ≤ "ab".length) := by decide
  constructor <;>
    simp [validateWithSchema, generateDefaultValues, genDefaults, defaultEntry,
          parseIssues, objectIssues, lookupField, strChecksIssues, strCheckIssues,
          numChecksIssues, numCheckIssues, isNullV, isUndefinedV, applyDefault,
          invalidType, pushSeg, c4NullableShape, c4BadDefaultShape, h2]

/-- Helper for C2: while every scanned check keeps scanning, the string
loop returns at the first long min-length check with widget textarea,
and the checks after it never influence the result. -/
theorem stringLoop_textarea (v : Nat) (hv : 100 ≤ v) :
    ∀ (pre post : List StrCheck), pre.all keepsScanning = true → ∀ cfg,
      stringChecksLoop (pre ++ .min v :: post) cfg =
        stringChecksLoop (pre ++ [.min v]) cfg ∧
      (stringChecksLoop (pre ++ [.min v]) cfg).type = .textarea := by
  intro pre
  induction pre with
  | nil =>
    intro post _ cfg
    constructor <;> simp [stringChecksLoop, hv]
  | cons c rest ih =>
    intro post hall cfg
    simp only [List.all_cons, Bool.and_eq_true] at hall
    obtain ⟨hc, hrest⟩ := hall
    cases c with
    | email => simp [keepsScanning] at hc
    | url => simp [keepsScanning] at hc
    | min w =>
      simp only [keepsScanning, decide_eq_true_eq] at hc
      have hw : ¬ (w ≥ 100) := by omega
      simpa [stringChecksLoop, hw] using ih post hrest _
    | uuid => simpa [stringChecksLoop] using ih post hrest _
    | max w => simpa [stringChecksLoop] using ih post hrest _
    | regex src => simpa [stringChecksLoop] using ih post hrest _
    | cuid => simpa [stringChecksLoop] using ih post hrest _
    | startsWith w => simpa [stringChecksLoop] using ih post hrest _
    | endsWith w => simpa [stringChecksLoop] using ih post hrest _

/-- C2 (amended): for a string schema whose check list reaches a
min-length check of threshold at least 100 without an earlier email,
url, or long min-length check, the mapper returns textarea with the
constraints collected before that check merged; the checks declared
after it are discarded (the mapper returns immediately), not merged. -/
theorem c2_textarea_truncates (pre post : List StrCheck) (v : Nat)
    (hv : 100 ≤ v) (hpre : pre.all keepsScanning = true) :
    (mapZodTypeToFieldType (.zString (pre ++ .min v :: post))).type = .textarea ∧
    mapZodTypeToFieldType (.zString (pre ++ .min v :: post)) =
      mapZodTypeToFieldType (.zString (pre ++ [.min v])) := by
  have h := stringLoop_textarea v hv pre post hpre {}
  constructor
  · show (stringChecksLoop (pre ++ .min v :: post) {}).type = .textarea
    rw [h.1]; exact h.2
  · exact h.1

/-- Witness for C2 at the concrete checks `[regex, min 120, max 200]`:
the widget is textarea and the result coincides with the mapping of the
truncated check list `[regex, min 120]`. -/
theorem c2_textarea_truncates_witness :
    [StrCheck.regex "x"].all keepsScanning = true ∧
    (mapZodTypeToFieldType (.zString [.regex "x", .min 120, .max 200])).type = .textarea ∧
    mapZodTypeToFieldType (.zString [.regex "x", .min 120, .max 200]) =
      mapZodTypeToFieldType (.zString [.regex "x", .min 120]) := by
  have h := c2_textarea_truncates [StrCheck.regex "x"] [StrCheck.max 200] 120
    (by norm_num) (by decide)
  exact ⟨by decide, h.1, h.2⟩

/-- Helper for C5: the numeric check loop realises last-wins semantics
for the min bound, the max bound, and the step, and decides the range
widget from the final bounds. -/
theorem numberLoop_spec (cs : List NumCheck) : ∀ cfg minV maxV,
    numberChecksLoop cs cfg minV maxV =
      { type :=
          match lastMinVal cs <|> minV, lastMaxVal cs <|> maxV with
          | some a, some b => if b - a ≤ 10 then FieldType.range else FieldType.number
          | _, _ => FieldType.number
        config :=
          { cfg with
              min := lastMinVal cs <|> cfg.min
              max := lastMaxVal cs <|> cfg.max
              step := lastStepVal cs <|> cfg.step } } := by
  induction cs with
  | nil =>
    intro cfg minV maxV
    cases minV with
    | none => cases maxV <;> rfl
    | some a =>
      cases maxV with
      | none => rfl
      | some b =>
        by_cases hc : b - a ≤ 10 <;>
          simp [numberChecksLoop, lastMinVal, lastMaxVal, lastStepVal, hc]
  | cons c rest ih =>
    intro cfg minV maxV
    cases c <;>
      simp only [numberChecksLoop, lastMinVal, lastMaxVal, lastStepVal, ih] <;>
      cases h1 : lastMinVal rest <;> cases h2 : lastMaxVal rest <;> cases h3 : lastStepVal rest <;>
        simp [h1, h2, h3]

/-- C5 (amended): for every number schema, `config.min` and
`config.max` carry the last declared min and max bounds; the widget is
range exactly when both bounds are declared and the final span is at
most 10, and number otherwise.  The step is set by int (to 1) and by
multipleOf (to its value) in declaration order, the last such check
winning: a multipleOf after the int check overrides the step, but an
int check after multipleOf resets it to 1. -/
theorem c5_number_mapping (cs : List NumCheck) :
    (mapZodTypeToFieldType (.zNumber cs)).config.min = lastMinVal cs ∧
    (mapZodTypeToFieldType (.zNumber cs)).config.max = lastMaxVal cs ∧
    (mapZodTypeToFieldType (.zNumber cs)).config.step = lastStepVal cs ∧
    (mapZodTypeToFieldType (.zNumber cs)).type =
      (match lastMinVal cs, lastMaxVal cs with
       | some a, some b => if b - a ≤ 10 then FieldType.range else FieldType.number
       | _, _ => FieldType.number) := by
  show (numberChecksLoop cs {} none none).config.min = _ ∧
    (numberChecksLoop cs {} none none).config.max = _ ∧
    (numberChecksLoop cs {} none none).config.step = _ ∧
    (numberChecksLoop cs {} none none).type = _
  rw [numberLoop_spec cs {} none none]
  cases h1 : lastMinVal cs <;> cases h2 : lastMaxVal cs <;> cases h3 : lastStepVal cs <;>
    simp [h1, h2, h3]

/-- Helper for C3: the string-check loop never writes the `showWhen` or
`fields` keys of the config it threads. -/
theorem stringLoop_config_inert (cs : List StrCheck) : ∀ cfg : FieldConfig,
    (stringChecksLoop cs cfg).config.showWhen = cfg.showWhen ∧
    (stringChecksLoop cs cfg).config.fields = cfg.fields := by
  induction cs with
  | nil => intro cfg; exact ⟨rfl, rfl⟩
  | cons c rest ih =>
    intro cfg
    cases c with
    | email => exact ⟨rfl, rfl⟩
    | url => exact ⟨rfl, rfl⟩
    | min v =>
      simp only [stringChecksLoop]
      split
      · exact ⟨rfl, rfl⟩
      · exact ih _
    | uuid => exact ih _
    | max v => exact ih _
    | regex src => exact ih _
    | cuid => exact ih _
    | startsWith v => exact ih _
    | endsWith v => exact ih _

/-- Helper for C3: the mapper never writes the `showWhen` or `fields`
keys of the config it returns. -/
theorem map_config_inert : ∀ s : Schema,
    (mapZodTypeToFieldType s).config.showWhen = none ∧
    (mapZodTypeToFieldType s).config.fields = none
  | .zDefault v inner => by
    have ih := map_config_inert inner
    exact ⟨ih.1, ih.2⟩
  | .zOptional inner => by
    have ih := map_config_inert inner
    exact ⟨ih.1, ih.2⟩
  | .zNullable inner => by
    have ih := map_config_inert inner
    exact ⟨ih.1, ih.2⟩
  | .zEffects inner => map_config_inert inner
  | .zString checks => stringLoop_config_inert checks {}
  | .zNumber checks => by
    show (numberChecksLoop checks {} none none).config.showWhen = none ∧
      (numberChecksLoop checks {} none none).config.fields = none
    rw [numberLoop_spec checks {} none none]
    exact ⟨rfl, rfl⟩
  | .zBoolean => ⟨rfl, rfl⟩
  | .zDate => ⟨rfl, rfl⟩
  | .zEnum values => by
    simp only [mapZodTypeToFieldType]
    split
    · exact ⟨rfl, rfl⟩
    · exact ⟨rfl, rfl⟩
  | .zNativeEnum values => ⟨rfl, rfl⟩
  | .zArray mn mx elem => ⟨rfl, rfl⟩
  | .zObject shape => ⟨rfl, rfl⟩
  | .zRecord vs => ⟨rfl, rfl⟩
  | .zUnion opts => ⟨rfl, rfl⟩
  | .zDiscriminatedUnion disc opts => ⟨rfl, rfl⟩
  | .zFile => ⟨rfl, rfl⟩
  | .zBigInt => ⟨rfl, rfl⟩
  | .zUnknownKind => ⟨rfl, rfl⟩

/-- Helper for C3: the string branch of the rule extractor never writes
`showWhen` or `fields`. -/
theorem extractString_inert (cs : List StrCheck) : ∀ r : FieldConfig,
    (extractStringRules cs r).showWhen = r.showWhen ∧
    (extractStringRules cs r).fields = r.fields := by
  induction cs with
  | nil => intro r; exact ⟨rfl, rfl⟩
  | cons c rest ih => intro r; cases c <;> exact ih _

/-- Helper for C3: the number branch of the rule extractor never writes
`showWhen` or `fields`. -/
theorem extractNumber_inert (cs : List NumCheck) : ∀ r : FieldConfig,
    (extractNumberRules cs r).showWhen = r.showWhen ∧
    (extractNumberRules cs r).fields = r.fields := by
  induction cs with
  | nil => intro r; exact ⟨rfl, rfl⟩
  | cons c rest ih => intro r; cases c <;> exact ih _

/-- Helper for C3: the rule extractor never writes `showWhen` or
`fields`. -/
theorem extract_config_inert : ∀ s : Schema,
    (extractValidationRules s).showWhen = none ∧
    (extractValidationRules s).fields = none
  | .zDefault _ inner => extract_config_inert inner
  | .zOptional inner => by
    have ih := extract_config_inert inner
    exact ⟨ih.1, ih.2⟩
  | .zNullable inner => by
    have ih := extract_config_inert inner
    exact ⟨ih.1, ih.2⟩
  | .zEffects inner => extract_config_inert inner
  | .zString cs => extractString_inert cs {}
  | .zNumber cs => extractNumber_inert cs {}
  | .zBoolean => ⟨rfl, rfl⟩
  | .zDate => ⟨rfl, rfl⟩
  | .zEnum _ => ⟨rfl, rfl⟩
  | .zNativeEnum _ => ⟨rfl, rfl⟩
  | .zArray _ _ _ => ⟨rfl, rfl⟩
  | .zObject _ => ⟨rfl, rfl⟩
  | .zRecord _ => ⟨rfl, rfl⟩
  | .zUnion _ => ⟨rfl, rfl⟩
  | .zDiscriminatedUnion _ _ => ⟨rfl, rfl⟩
  | .zFile => ⟨rfl, rfl⟩
  | .zBigInt => ⟨rfl, rfl⟩
  | .zUnknownKind => ⟨rfl, rfl⟩

/-- Helper for C3: no field definition produced by the parser carries a
`showWhen` rule or a `fields` record. -/
theorem analyzeField_config_inert (name : String) (s : Schema) :
    (analyzeField name s).config.showWhen = none ∧
    (analyzeField name s).config.fields = none := by
  have h1 := map_config_inert s
  have h2 := extract_config_inert s
  constructor
  · show ((extractValidationRules s).showWhen <|> (mapZodTypeToFieldType s).config.showWhen) = none
    rw [h1.1, h2.1]; rfl
  · show ((extractValidationRules s).fields <|> (mapZodTypeToFieldType s).config.fields) = none
    rw [h1.2, h2.2]; rfl

/-- C3 (amended): for every schema, the analyzer reports complex
exactly when the field count exceeds 20, moderate exactly when some
field is array- or object-typed or the field count exceeds 10 and the
count is at most 20, and simple otherwise.  The conditional-visibility
and nested-shape escalations of the source can never fire on parser
output, because the parser populates neither `config.showWhen` nor
`config.fields`. -/
theorem c3_complexity_characterization (s : Schema) :
    ((analyzeSchema s).complexity = Complexity.complex ↔
      20 < (analyzeSchema s).fields.length) ∧
    ((analyzeSchema s).complexity = Complexity.moderate ↔
      (((analyzeSchema s).hasArrays = true ∨ (analyzeSchema s).hasObjects = true ∨
          10 < (analyzeSchema s).fields.length) ∧ (analyzeSchema s).fields.length ≤ 20)) ∧
    ((analyzeSchema s).complexity = Complexity.simple ↔
      ((analyzeSchema s).hasArrays = false ∧ (analyzeSchema s).hasObjects = false ∧
        (analyzeSchema s).fields.length ≤ 10)) := by
  have hinert : ∀ f ∈ (parseSchema s).map Prod.snd,
      f.config.showWhen = none ∧ f.config.fields = none := by
    intro f hf
    cases s <;>
      simp only [parseSchema, List.map_nil, List.not_mem_nil, List.map_map, List.mem_map,
        Function.comp] at hf
    obtain ⟨p, hp, rfl⟩ := hf
    exact analyzeField_config_inert p.1 p.2
  have hcond : (((parseSchema s).map Prod.snd).any fun field =>
      field.config.showWhen.isSome) = false := by
    rw [List.any_eq_false]
    intro f hf
    simp [(hinert f hf).1]
  have hscan : (((parseSchema s).map Prod.snd).any fun field =>
      field.type == FieldType.object &&
        match field.config.fields with
        | some fs => decide (fs.length > 5)
        | none => false) = false := by
    rw [List.any_eq_false]
    intro f hf
    simp [(hinert f hf).2]
  have hcplx : (analyzeSchema s).complexity =
      (if 20 < ((parseSchema s).map Prod.snd).length then Complexity.complex
       else if ((((parseSchema s).map Prod.snd).any fun field => field.type == FieldType.array) = true ∨
           (((parseSchema s).map Prod.snd).any fun field => field.type == FieldType.object) = true ∨
           10 < ((parseSchema s).map Prod.snd).length) then Complexity.moderate
       else Complexity.simple) := by
    show (if ((((parseSchema s).map Prod.snd).any fun field => field.config.showWhen.isSome) ||
          decide (((parseSchema s).map Prod.snd).length > 20) ||
          (((parseSchema s).map Prod.snd).any fun field =>
            field.type == FieldType.object &&
              match field.config.fields with
              | some fs => decide (fs.length > 5)
              | none => false)) = true then Complexity.complex
        else if ((((parseSchema s).map Prod.snd).any fun field => field.type == FieldType.array) ||
            (((parseSchema s).map Prod.snd).any fun field => field.type == FieldType.object) ||
            decide (((parseSchema s).map Prod.snd).length > 10)) = true then Complexity.moderate
        else Complexity.simple) = _
    rw [hcond, hscan]
    simp only [Bool.false_or, Bool.or_false, Bool.or_eq_true, decide_eq_true_eq, beq_iff_eq,
      gt_iff_lt, or_assoc]
  rw [hcplx]
  have hfe : (analyzeSchema s).fields = (parseSchema s).map Prod.snd := rfl
  have hae : (analyzeSchema s).hasArrays =
      (((parseSchema s).map Prod.snd).any fun field => field.type == FieldType.array) := rfl
  have hoe : (analyzeSchema s).hasObjects =
      (((parseSchema s).map Prod.snd).any fun field => field.type == FieldType.object) := rfl
  rw [hfe, hae, hoe]
  split_ifs with h1 h2
  · refine ⟨⟨fun _ => h1, fun _ => rfl⟩, ?_, ?_⟩
    · constructor
      · intro h; exact absurd h (by decide)
      · rintro ⟨-, hle⟩; omega
    · constructor
      · intro h; exact absurd h (by decide)
      · rintro ⟨-, -, hle⟩; omega
  · refine ⟨?_, ?_, ?_⟩
    · constructor
      · intro h; exact absurd h (by decide)
      · intro h20; exact absurd h20 h1
    · exact ⟨fun _ => ⟨h2, by omega⟩, fun _ => rfl⟩
    · constructor
      · intro h; exact absurd h (by decide)
      · rintro ⟨ha, ho, hl⟩
        rcases h2 with h | h | h
        · rw [ha] at h; cases h
        · rw [ho] at h; cases h
        · omega
  · push_neg at h2
    obtain ⟨ha, ho, hlen⟩ := h2
    refine ⟨?_, ?_, ?_⟩
    · constructor
      · intro h; exact absurd h (by decide)
      · intro h20; exact absurd h20 h1
    · constructor
      · intro h; exact absurd h (by decide)
      · rintro ⟨hd, -⟩
        rcases hd with h | h | h
        · exact absurd h ha
        · exact absurd h ho
        · omega
    · refine ⟨fun _ => ⟨?_, ?_, by omega⟩, fun _ => rfl⟩
      · simpa using ha
      · simpa using ho

/-- C7: the validator never propagates an exception.  When the runtime
raises inside the try block it returns failure with exactly one
synthetic error with field root and code custom; otherwise every
returned error carries the schema-native code, message and path of an
issue of the parse, with `field` equal to the path segments joined by
dots. -/
theorem c7_validator_error_shape (o : JsOracle) (exceptionRaised : Bool)
    (schema : Schema) (data : Value) :
    (exceptionRaised = true →
      validateWithSchema o exceptionRaised schema data =
        { success := false, data := none,
          errors := [{ field := "root", message := "Schema validation failed",
                       code := "custom", path := [] }] }) ∧
    (exceptionRaised = false →
      ∀ e ∈ (validateWithSchema o exceptionRaised schema data).errors,
        ∃ i ∈ parseIssues o schema data,
          e.code = i.code ∧ e.message = i.message ∧ e.path = i.path ∧
            e.field = joinPath i.path) := by
  constructor
  · intro h; subst h; rfl
  · intro h e he
    subst h
    simp only [validateWithSchema, Bool.false_eq_true, if_false] at he
    split at he
    · simp at he
    · simp only [List.mem_map] at he
      obtain ⟨i, hi, rfl⟩ := he
      exact ⟨i, hi, rfl, rfl, rfl, rfl⟩

/-- Witness for C7 at a concrete input: the exception branch yields the
single synthetic root error. -/
theorem c7_validator_error_shape_witness :
    validateWithSchema defaultOracle true (.zString []) .vNull =
      { success := false, data := none,
        errors := [{ field := "root", message := "Schema validation failed",
                     code := "custom", path := [] }] } :=
  (c7_validator_error_shape defaultOracle true (.zString []) .vNull).1 rfl

/-- C8: the visibility evaluator marks a field with no visibility rule
visible, and marks a field whose rule carries an operator outside the
recognised set visible regardless of the dependent value (fail-open). -/
theorem c8_visibility_fail_open (fields : List (String × FieldAnalysis))
    (formValues : List (String × Value)) (name : String) (field : FieldAnalysis)
    (hmem : (name, field) ∈ fields) :
    (field.config.showWhen = none →
      (name, true) ∈ useConditionalFields fields formValues) ∧
    (∀ rule op, field.config.showWhen = some rule → rule.operator = some op →
      op ≠ "equals" → op ≠ "not-equals" → op ≠ "contains" →
      op ≠ "greater-than" → op ≠ "less-than" →
      (name, true) ∈ useConditionalFields fields formValues) := by
  have hmap : ∀ h : fieldVisible field formValues = true,
      (name, true) ∈ useConditionalFields fields formValues := by
    intro h
    have hm := List.mem_map_of_mem
      (fun p : String × FieldAnalysis => (p.1, fieldVisible p.2 formValues)) hmem
    simp only at hm
    rw [h] at hm
    exact hm
  constructor
  · intro h
    exact hmap (by simp [fieldVisible, h])
  · intro rule op h1 h2 h3 h4 h5 h6 h7
    refine hmap ?_
    have e3 : (op == "equals") = false := by simp [h3]
    have e4 : (op == "not-equals") = false := by simp [h4]
    have e5 : (op == "contains") = false := by simp [h5]
    have e6 : (op == "greater-than") = false := by simp [h6]
    have e7 : (op == "less-than") = false := by simp [h7]
    simp [fieldVisible, h1, h2, e3, e4, e5, e6, e7]

/-- Witness for C8 at concrete inputs: a field whose rule has operator
`sometimes` (not in the recognised set) is visible, and a field with no
rule is visible. -/
theorem c8_visibility_fail_open_witness :
    ("x", true) ∈ useConditionalFields [("x", c8RuleField), ("y", c8PlainField)]
      [("dep", .vStr "other")] ∧
    ("y", true) ∈ useConditionalFields [("x", c8RuleField), ("y", c8PlainField)] [] := by
  constructor
  · exact (c8_visibility_fail_open [("x", c8RuleField), ("y", c8PlainField)]
      [("dep", .vStr "other")] "x" c8RuleField (by simp)).2
      { field := "dep", value := .vStr "v", operator := some "sometimes" } "sometimes"
      rfl rfl (by decide) (by decide) (by decide) (by decide) (by decide)
  · exact (c8_visibility_fail_open [("x", c8RuleField), ("y", c8PlainField)]
      [] "y" c8PlainField (by simp)).1 rfl

/-- Helper for C10 and C4: a key whose every binding in the shape
contributes no default entry is absent from the synthesized record. -/
theorem genDefaults_not_mem (shape : List (String × Schema)) (k : String)
    (h : ∀ s, (k, s) ∈ shape → defaultEntry s = none) :
    k ∉ (genDefaults shape).map Prod.fst := by
  induction shape with
  | nil => simp [genDefaults]
  | cons p rest ih =>
    obtain ⟨k', s'⟩ := p
    intro hk
    rw [genDefaults] at hk
    rw [List.map_append, List.mem_append] at hk
    rcases hk with hk | hk
    · cases hde : defaultEntry s' <;> rw [hde] at hk
      · simp at hk
      · simp at hk
        subst hk
        have hnone := h s' (List.mem_cons_self _ _)
        rw [hnone] at hde
        cases hde
    · exact ih (fun s hs => h s (List.mem_cons_of_mem _ hs)) hk

/-- Helper for C10 and C4: a key absent from a record reads as
undefined. -/
theorem lookupField_eq_undefined (flds : List (String × Value)) (k : String)
    (h : k ∉ flds.map Prod.fst) : lookupField flds k = .vUndefined := by
  induction flds with
  | nil => rfl
  | cons p rest ih =>
    simp only [List.map_cons, List.mem_cons, not_or] at h
    obtain ⟨h1, h2⟩ := h
    obtain ⟨k', v⟩ := p
    simp only [lookupField]
    rw [if_neg]
    · exact ih h2
    · simp only [beq_iff_eq]
      exact fun he => h1 he.symm

/-- C10: default-value synthesis does not resolve optional or nullable
wrappers: a property whose top-level node is optional or nullable (and
thus carries no top-level default) is omitted from the synthesized
record, whatever its inner base kind, and reads as undefined. -/
theorem c10_optional_omitted (shape : List (String × Schema)) (k : String)
    (h : ∀ s, (k, s) ∈ shape → isOptionalOrNullableTop s = true) :
    k ∉ (generateDefaultValues (.zObject shape)).map Prod.fst ∧
    lookupField (generateDefaultValues (.zObject shape)) k = .vUndefined := by
  have hde : ∀ s, (k, s) ∈ shape → defaultEntry s = none := by
    intro s hs
    have hx := h s hs
    cases s <;> simp only [isOptionalOrNullableTop] at hx <;> first | rfl | cases hx
  have h1 := genDefaults_not_mem shape k hde
  exact ⟨h1, lookupField_eq_undefined _ k h1⟩

/-- Witness for C10 at a concrete shape: the optional string property
`a` and the nullable boolean property `b` are both omitted from the
synthesized record. -/
theorem c10_optional_omitted_witness :
    "a" ∉ (generateDefaultValues (.zObject c10Shape)).map Prod.fst ∧
    "b" ∉ (generateDefaultValues (.zObject c10Shape)).map Prod.fst := by
  constructor
  · refine (c10_optional_omitted c10Shape "a" ?_).1
    intro s hs
    simp only [c10Shape, List.mem_cons, List.not_mem_nil, or_false, Prod.mk.injEq] at hs
    rcases hs with ⟨-, rfl⟩ | ⟨hb, -⟩ | ⟨hc, -⟩
    · rfl
    · exact absurd hb (by decide)
    · exact absurd hc (by decide)
  · refine (c10_optional_omitted c10Shape "b" ?_).1
    intro s hs
    simp only [c10Shape, List.mem_cons, List.not_mem_nil, or_false, Prod.mk.injEq] at hs
    rcases hs with ⟨ha, -⟩ | ⟨-, rfl⟩ | ⟨hc, -⟩
    · exact absurd ha (by decide)
    · rfl
    · exact absurd hc (by decide)

/-- Helper: with distinct keys, two bindings of the same key coincide. -/
theorem nodup_keys_unique {α : Type} {l : List (String × α)}
    (hnodup : (l.map Prod.fst).Nodup) {k : String} {a b : α}
    (ha : (k, a) ∈ l) (hb : (k, b) ∈ l) : a = b := by
  induction l with
  | nil => cases ha
  | cons p rest ih =>
    obtain ⟨k', c⟩ := p
    simp only [List.map_cons, List.nodup_cons] at hnodup
    obtain ⟨hk, hrest⟩ := hnodup
    rcases List.mem_cons.mp ha with heqa | hina
    · injection heqa with e1 e2
      rcases List.mem_cons.mp hb with heqb | hinb
      · injection heqb with f1 f2
        rw [e2, f2]
      · exfalso
        apply hk
        rw [← e1]
        exact List.mem_map_of_mem Prod.fst hinb
    · rcases List.mem_cons.mp hb with heqb | hinb
      · injection heqb with f1 f2
        exfalso
        apply hk
        rw [← f1]
        exact List.mem_map_of_mem Prod.fst hina
      · exact ih hrest hina hinb

/-- Helper for C4: with distinct keys, a property contributing a
default entry is found under its key in the synthesized record. -/
theorem genDefaults_lookup (shape : List (String × Schema))
    (hnodup : (shape.map Prod.fst).Nodup) (k : String) (s : Schema) (v : Value)
    (hmem : (k, s) ∈ shape) (hde : defaultEntry s = some v) :
    lookupField (genDefaults shape) k = v := by
  induction shape with
  | nil => cases hmem
  | cons p rest ih =>
    obtain ⟨k', s'⟩ := p
    simp only [List.map_cons, List.nodup_cons] at hnodup
    obtain ⟨hknotin, hrest⟩ := hnodup
    rw [genDefaults]
    rcases List.mem_cons.mp hmem with heq | hmem2
    · have e1 : k = k' := (Prod.mk.injEq _ _ _ _ ▸ heq).1
      have e2 : s = s' := (Prod.mk.injEq _ _ _ _ ▸ heq).2
      subst e1
      subst e2
      rw [hde]
      simp [lookupField]
    · have hkmem : k ∈ rest.map Prod.fst := List.mem_map_of_mem Prod.fst hmem2
      have hne : k' ≠ k := fun he => hknotin (he ▸ hkmem)
      cases hde2 : defaultEntry s'
      · simp only [List.nil_append]
        exact ih hrest hmem2
      · simp only [List.singleton_append, lookupField]
        rw [if_neg]
        · exact ih hrest hmem2
        · simp only [beq_iff_eq]
          exact hne

/-- Helper for C4: an object value is accepted when every property of
the shape accepts what the record holds under its key. -/
theorem objectIssues_eq_nil (o : JsOracle) (shape : List (String × Schema))
    (flds : List (String × Value))
    (h : ∀ p ∈ shape, parseIssues o p.2 (lookupField flds p.1) = []) :
    objectIssues o shape flds = [] := by
  induction shape with
  | nil => rw [objectIssues]
  | cons p rest ih =>
    obtain ⟨k, s⟩ := p
    rw [objectIssues]
    have hh := h (k, s) (List.mem_cons_self _ _)
    rw [hh]
    simp only [List.map_nil, List.nil_append]
    exact ih (fun q hq => h q (List.mem_cons_of_mem _ hq))

/-- C4 (amended): validating the synthesized default tree succeeds for
every object schema with distinct property names whose properties are
each optional (not merely nullable) or carry a declared default value
accepted by their inner schema. -/
theorem c4_roundtrip_amended (o : JsOracle) (shape : List (String × Schema))
    (hnodup : (shape.map Prod.fst).Nodup)
    (h : ∀ p ∈ shape,
      (∃ inner, p.2 = Schema.zOptional inner) ∨
      (∃ dv inner, p.2 = Schema.zDefault dv inner ∧ parseIssues o inner dv = [])) :
    (validateWithSchema o false (.zObject shape)
      (.vObj (generateDefaultValues (.zObject shape)))).success = true := by
  have hissues : parseIssues o (.zObject shape)
      (.vObj (generateDefaultValues (.zObject shape))) = [] := by
    rw [parseIssues]
    apply objectIssues_eq_nil
    intro p hp
    obtain ⟨k, s⟩ := p
    rcases h (k, s) hp with ⟨inner, rfl⟩ | ⟨dv, inner, rfl, hdv⟩
    · have hnone : ∀ s2, (k, s2) ∈ shape → defaultEntry s2 = none := by
        intro s2 hs2
        have he : s2 = Schema.zOptional inner := nodup_keys_unique hnodup hs2 hp
        rw [he]
        rfl
      have hk := genDefaults_not_mem shape k hnone
      have hlook :
          lookupField (generateDefaultValues (.zObject shape)) k = .vUndefined :=
        lookupField_eq_undefined _ _ hk
      show parseIssues o (.zOptional inner)
        (lookupField (generateDefaultValues (.zObject shape)) k) = []
      rw [hlook, parseIssues]
      rfl
    · have hlook : lookupField (generateDefaultValues (.zObject shape)) k = dv :=
        genDefaults_lookup shape hnodup k _ dv hp rfl
      show parseIssues o (.zDefault dv inner)
        (lookupField (generateDefaultValues (.zObject shape)) k) = []
      rw [hlook, parseIssues]
      have hap : applyDefault dv dv = dv := by
        rw [applyDefault]
        split <;> rfl
      rw [hap]
      exact hdv
  simp only [validateWithSchema, Bool.false_eq_true, if_false, hissues, List.isEmpty_nil,
    if_true]

/-- Witness for C4 at a concrete shape: an optional string property
plus a numeric property with conforming default 3 validate after
synthesis. -/
theorem c4_roundtrip_amended_witness :
    (validateWithSchema defaultOracle false (.zObject c4GoodShape)
      (.vObj (generateDefaultValues (.zObject c4GoodShape)))).success = true := by
  apply c4_roundtrip_amended
  · decide
  · intro p hp
    simp only [c4GoodShape, List.mem_cons, List.not_mem_nil, or_false] at hp
    rcases hp with rfl | rfl
    · exact Or.inl ⟨_, rfl⟩
    · refine Or.inr ⟨_, _, rfl, ?_⟩
      rw [parseIssues]
      rfl
